import Mathlib

/-!
Shallow embedding of the kduda training-step core:
`src/mmseg/models/utils/proto_estimator.py` (class `ProtoEstimator`) and
`src/mmseg/models/uda/dacs.py` (class `DACS`, method `forward_train`).

Feature values, probabilities and weights are modelled as rationals;
tensors as (nested) lists; fallible tensor operations (`view`, attribute
reads) as `Option`.
-/

namespace Kduda

/-! ## Generic list machinery: Python `collections.deque` with `maxlen` -/

/-- `takeLast n l` is the suffix of `l` of length `min n l.length`
(the `n` most recently appended elements). -/
def takeLast (n : Nat) (l : List α) : List α :=
  l.drop (l.length - n)

/-- Indexed map over a list, carrying the running index explicitly (the
shape of a Python `for idx, x in enumerate(...)` traversal). -/
def mapWithIndex (f : Nat → α → β) : Nat → List α → List β
  | _, [] => []
  | i, a :: as => f i a :: mapWithIndex f (i + 1) as

/-- Embeds `collections.deque.append` on a deque constructed with
`maxlen = m`: the new element is appended on the right and, when the deque
is full, the oldest (leftmost) element is discarded. -/
def dequeAppend (m : Nat) (q : List α) (v : α) : List α :=
  takeLast m (q ++ [v])

/-! ## ProtoEstimator (src/mmseg/models/utils/proto_estimator.py) -/

/-- `torch.zeros(dim)`: the zero feature vector. -/
def zeroVec (dim : Nat) : List ℚ :=
  List.replicate dim 0

/-- State of `ProtoEstimator`: the per-class FIFO memory bank of feature
vectors (`self.MemoryBank`, a Python list of `deque`s indexed by class id),
together with the constructor parameters.  The running mean/covariance
accumulators (`Ave`, `CoVariance`, `Amount`) are never read by the loss
path and are omitted from the state. -/
structure ProtoEstimator where
  dim : Nat
  class_num : Nat
  memory_length : Nat
  MemoryBank : List (List (List ℚ))

/-- `ProtoEstimator.__init__` in the fresh branch (`resume` empty):
`MemoryBank = [deque([self.Ave[cls].unsqueeze(0)], maxlen=memory_length) ...]`
with `Ave = torch.zeros(class_num, dim)`, i.e. every class queue is seeded
with one zero vector (a `deque` built with `maxlen` keeps only the last
`maxlen` elements of its initial iterable). -/
def ProtoEstimator.init (dim class_num memory_length : Nat) : ProtoEstimator :=
  { dim := dim
    class_num := class_num
    memory_length := memory_length
    MemoryBank :=
      List.replicate class_num (takeLast memory_length [zeroVec dim]) }

/-- Number of batch pixels carrying class `c`: the column-`c` sum of the
one-hot matrix built by `onehot.scatter_(1, labels.view(-1, 1), 1)`
(`Amount_CxA[c]` before the zero clamp). -/
def classCount (labels : List Nat) (c : Nat) : Nat :=
  (labels.filter (fun l => l = c)).length

/-- Elementwise sum of two feature vectors. -/
def vecAdd (a b : List ℚ) : List ℚ :=
  List.zipWith (fun x y => x + y) a b

/-- Row `c` of `features_by_sort.sum(0)`: the elementwise sum of the feature
vectors of the pixels labelled `c` (all other rows of `features_by_sort`
were zeroed by the one-hot multiplication). -/
def classSum (A : Nat) (features : List (List ℚ)) (labels : List Nat)
    (c : Nat) : List ℚ :=
  (labels.zip features).foldl
    (fun acc p => if p.1 = c then vecAdd acc p.2 else acc)
    (List.replicate A 0)

/-- Row `c` of `ave_CxA = features_by_sort.sum(0) / Amount_CxA`, where
`Amount_CxA[Amount_CxA == 0] = 1` clamps empty-class counts to `1`. -/
def aveRow (A : Nat) (features : List (List ℚ)) (labels : List Nat)
    (c : Nat) : List ℚ :=
  let cnt := classCount labels c
  let d : ℚ := if cnt = 0 then 1 else (cnt : ℚ)
  (classSum A features labels c).map (fun x => x / d)

/-- `ProtoEstimator.update_proto(features, labels)`: for each class
occurring in `labels` (`torch.unique(labels)`), append that class's batch
mean feature row `ave_CxA[cls]` to its deque; every other class queue is
untouched.  `A` is the feature width read off `features.size()`. -/
def ProtoEstimator.update_proto (e : ProtoEstimator)
    (features : List (List ℚ)) (labels : List Nat) : ProtoEstimator :=
  let A := (features.head?.getD []).length
  { e with
    MemoryBank :=
      mapWithIndex (fun c q =>
        if c ∈ labels then
          dequeAppend e.memory_length q (aveRow A features labels c)
        else q) 0 e.MemoryBank }

/-- Reading class `c`'s queue out of the bank (`self.MemoryBank[cls]`),
defaulting to the empty queue when `c` is out of range. -/
def bankQueue (e : ProtoEstimator) (c : Nat) : List (List ℚ) :=
  e.MemoryBank.getD c []

/-- Folding a whole training session's batches through `update_proto`. -/
def runUpdates (e : ProtoEstimator)
    (batches : List (List (List ℚ) × List Nat)) : ProtoEstimator :=
  List.foldl (fun e b => e.update_proto b.1 b.2) e batches

/-- A persisted snapshot as read back by `torch.load(resume)`: the dict
always holds `CoVariance`, `Ave` and `Amount`, and holds `MemoryBank` only
when it was saved (`if 'MemoryBank' in checkpoint`). -/
structure Checkpoint where
  CoVariance : List (List ℚ)
  Ave : List (List ℚ)
  Amount : List ℚ
  MemoryBank : Option (List (List (List ℚ)))

/-- The `self.MemoryBank` attribute right after `ProtoEstimator.__init__`,
covering both constructor branches: resuming installs the snapshot's bank
only when the snapshot contains the key `MemoryBank` (otherwise the
attribute stays unset, modelled as `none`); the fresh branch seeds every
class queue with one zero vector. -/
def memoryBankAtInit (dim class_num memory_length : Nat)
    (resume : Option Checkpoint) : Option (List (List (List ℚ))) :=
  match resume with
  | some ck => ck.MemoryBank
  | none =>
      some (List.replicate class_num (takeLast memory_length [zeroVec dim]))

/-- A read `self.MemoryBank[cls]` straight after construction; `none`
models the read raising (unset attribute, or out-of-range class id). -/
def readBankAtInit (dim class_num memory_length : Nat)
    (resume : Option Checkpoint) (c : Nat) : Option (List (List ℚ)) :=
  (memoryBankAtInit dim class_num memory_length resume).bind (fun b => b[c]?)

/-! ## DACS.forward_train: pseudo-label generation
(src/mmseg/models/uda/dacs.py, lines 284–299) -/

/-- Per-pixel trust mask `ps_large_p = pseudo_prob.ge(self.pseudo_threshold)`
over the flattened batch of per-pixel confidences. -/
def psLargeP (pseudo_prob : List ℚ) (threshold : ℚ) : List Bool :=
  pseudo_prob.map (fun p => threshold ≤ p)

/-- `torch.sum(ps_large_p).item()`: the number of trusted pixels. -/
def trustedCount (pseudo_prob : List ℚ) (threshold : ℚ) : Nat :=
  ((psLargeP pseudo_prob threshold).filter (fun b => b)).length

/-- `pseudo_weight_ = torch.sum(ps_large_p).item() / ps_size` where
`ps_size = np.size(np.array(pseudo_label.cpu()))` is the total number of
pixels in the target batch. -/
def pseudoWeightScalar (pseudo_prob : List ℚ) (threshold : ℚ) : ℚ :=
  (trustedCount pseudo_prob threshold : ℚ) / (pseudo_prob.length : ℚ)

/-- In-place zeroing of one spatial row. -/
def zeroRow (row : List ℚ) : List ℚ :=
  row.map (fun _ => 0)

/-- `pseudo_weight[:, :top, :] = 0` on one batch element: rows of index
`< top` are zeroed. -/
def zeroTopRows (top : Nat) (g : List (List ℚ)) : List (List ℚ) :=
  mapWithIndex (fun r row => if r < top then zeroRow row else row) 0 g

/-- `pseudo_weight[:, -bottom:, :] = 0` on one batch element: the Python
negative slice covers the rows of index `≥ H - bottom` (all rows when
`bottom ≥ H`, matching truncated subtraction). -/
def zeroBottomRows (bottom : Nat) (g : List (List ℚ)) : List (List ℚ) :=
  mapWithIndex (fun r row => if g.length - bottom ≤ r then zeroRow row else row)
    0 g

/-- The weight tensor of `forward_train` lines 289–298:
`pseudo_weight = pseudo_weight_ * torch.ones(pseudo_prob.shape)` (shape
`B×H×W`, the shape of the pseudo-label map), then the top rows are zeroed
when `self.psweight_ignore_top > 0` and the bottom rows when
`self.psweight_ignore_bottom > 0`. -/
def pseudoWeightTensor (s : ℚ) (B H W top bottom : Nat) :
    List (List (List ℚ)) :=
  let t := List.replicate B (List.replicate H (List.replicate W s))
  let t1 := if 0 < top then t.map (zeroTopRows top) else t
  if 0 < bottom then t1.map (zeroBottomRows bottom) else t1

/-- `kl_loss_trg = pseudo_weight_ * kl_loss_trg` (line 379): the target
distillation loss is scaled by the global trust-weight scalar. -/
def klLossScaled (s kl : ℚ) : ℚ :=
  s * kl

/-- Modelled from the spec: the per-pixel weighting applied inside the
segmentation model's `forward_train` (not under src/) — §4.6 phase 6,
"mixed segmentation loss, weighted per-pixel by the mixed weight map"; the
weighted loss is the weight-scaled accumulation of the per-pixel losses. -/
def weightedPixelLoss (weights losses : List ℚ) : ℚ :=
  (List.zipWith (fun w l => w * l) weights losses).sum

/-! ## DACS.forward_train: loss-term schedule and warm-up gate
(src/mmseg/models/uda/dacs.py, lines 87–88 and 244–381) -/

/-- `self.start_distribution_iter = 50` (`DACS.__init__`, line 88). -/
def startDistributionIter : Nat := 50

/-- The loss terms computed and back-propagated by one call of
`DACS.forward_train`, in program order: the source segmentation loss, the
optional ImageNet feature-distance loss (`self.enable_fdist`), the
mixed-batch segmentation loss, the contrastive loss guarded by
`if self.local_iter >= self.start_distribution_iter` (line 367), and the
target KL distillation loss.  Before the warm-up gate the contrastive term
is not built at all — no zero-valued placeholder is appended. -/
def forwardTrainLossTerms (enable_fdist : Bool) (local_iter : Nat) :
    List String :=
  ["decode.loss_seg"]
    ++ (if enable_fdist then ["loss_imnet_feat_dist"] else [])
    ++ ["mix.decode.loss_seg"]
    ++ (if startDistributionIter ≤ local_iter then ["contrastive loss"] else [])
    ++ ["KL_div_loss_trg"]

/-! ## DomainMixer (spec-modelled)

`strong_transform` / `one_mix` live in
`mmseg/models/utils/dacs_transforms.py`, which is not under src/. -/

/-- Modelled from the spec: one pixel of the mask composite — §4.2
"mask=1 keeps source content, mask=0 keeps target content". -/
def mixPixel (m : Nat) (s t : α) : α :=
  if m = 1 then s else t

/-- Modelled from the spec: mask-compositing a whole 2-D grid with one
binary mask, pixel by pixel. -/
def mixGrid (mask : List (List Nat)) (srcg tgtg : List (List α)) :
    List (List α) :=
  List.zipWith
    (fun mrow prow =>
      List.zipWith (fun m p => mixPixel m p.1 p.2) mrow (prow.1.zip prow.2))
    mask (srcg.zip tgtg)

/-- One mixed sample: image, label and weight grids. -/
structure MixedSample where
  image : List (List ℚ)
  label : List (List Nat)
  weight : List (List ℚ)

/-- Modelled from the spec: the per-sample mixing of `forward_train` lines
306–314 — `strong_transform` is called with the same
`strong_parameters['mix'] = mix_masks[i]` for the image/label pair and for
the weight pair `(gt_pixel_weight[i], pseudo_weight[i])`, so image, label
and weight are composited with the identical mask. -/
def domainMix (mask : List (List Nat)) (srcImg tgtImg : List (List ℚ))
    (srcLbl tgtLbl : List (List Nat)) (gtWeight tgtWeight : List (List ℚ)) :
    MixedSample :=
  { image := mixGrid mask srcImg tgtImg
    label := mixGrid mask srcLbl tgtLbl
    weight := mixGrid mask gtWeight tgtWeight }

/-- `g` is an `H×W` grid. -/
def isGrid (H W : Nat) (g : List (List α)) : Prop :=
  g.length = H ∧ ∀ row ∈ g, row.length = W

instance (H W : Nat) (g : List (List α)) : Decidable (isGrid H W g) := by
  unfold isGrid
  infer_instance

/-- Entry `(r, c)` of a 2-D grid, with a default for out-of-range access. -/
def gridEntry (g : List (List α)) (r c : Nat) (d : α) : α :=
  (g.getD r []).getD c d

/-! ## Teacher inference in evaluation mode (spec-modelled)

The segmentation network itself is an external collaborator (§1, §6); only
the flag-clearing loop of `forward_train` lines 275–280 is repository code
under src/.  The network is modelled from the spec as a pipeline of layers
in which a stochastic regularization layer (torch `_DropoutNd`, timm
`DropPath`) consumes pseudo-randomness only while its `training` flag is
set. -/

/-- Modelled from the spec: one network layer — a deterministic function
layer, or a stochastic regularizer carrying its `training` flag. -/
inductive Layer where
  | func : (List ℚ → List ℚ) → Layer
  | dropout : Bool → Layer
  | droppath : Bool → Layer

/-- Modelled from the spec: applying one layer to an activation vector,
threading a stream of pseudo-random bits; dropout and drop-path read the
stream only when their `training` flag is set. -/
def Layer.apply : Layer → List ℚ × List Bool → List ℚ × List Bool
  | Layer.func f, (x, r) => (f x, r)
  | Layer.dropout true, (x, r) =>
      (List.zipWith (fun keep v => if keep then v else 0) r x, r.drop x.length)
  | Layer.dropout false, (x, r) => (x, r)
  | Layer.droppath true, (x, r) =>
      (if r.headD true then x else x.map (fun _ => 0), r.drop 1)
  | Layer.droppath false, (x, r) => (x, r)

/-- Modelled from the spec: running the whole network on an input with a
given pseudo-random bit stream; the first component is the logits. -/
def runNet (net : List Layer) (x : List ℚ) (r : List Bool) :
    List ℚ × List Bool :=
  net.foldl (fun acc layer => layer.apply acc) (x, r)

/-- The flag-clearing loop of `forward_train` lines 275–280:
`for m in modules(): if isinstance(m, _DropoutNd): m.training = False;
if isinstance(m, DropPath): m.training = False` — every stochastic
regularization layer has its `training` flag cleared, other layers are
untouched. -/
def setEvalFlags (net : List Layer) : List Layer :=
  net.map (fun l =>
    match l with
    | Layer.dropout _ => Layer.dropout false
    | Layer.droppath _ => Layer.droppath false
    | Layer.func f => Layer.func f)

/-! ## The reshape gate before the memory-bank update
(src/mmseg/models/uda/dacs.py, lines 360–363) -/

/-- `pseudo_label.view(2, 1, 512, 512)` (line 361): a torch `view` yields a
tensor with the same elements exactly when the element count matches the
requested shape, and raises otherwise.  Modelled on the flattened data. -/
def tensorView (l : List Nat) (b c h w : Nat) : Option (List Nat) :=
  if l.length = b * c * h * w then some l else none

/-- Lines 361–363 of `forward_train`: the pseudo-label map is reshaped to
`(2, 1, 512, 512)` and only then is `update_proto` called on the features
and mask produced by `contrast_preparations` (itself not under src/,
passed here as data).  `none` models the `view` exception propagating, so
the memory bank is left untouched and neither the contrastive nor the
distillation loss is reached. -/
def bankUpdatePhase (est : ProtoEstimator) (pseudo_label : List Nat)
    (feat : List (List ℚ)) (mask : List Nat) : Option ProtoEstimator :=
  (tensorView pseudo_label 2 1 512 512).map (fun _ => est.update_proto feat mask)

/-! # Lemmas -/

theorem takeLast_length (n : Nat) (l : List α) :
    (takeLast n l).length = l.length - (l.length - n) := by
  simp [takeLast]

theorem takeLast_length_le (n : Nat) (l : List α) :
    (takeLast n l).length ≤ n := by
  rw [takeLast_length]
  omega

theorem takeLast_of_le (n : Nat) (l : List α) (h : l.length ≤ n) :
    takeLast n l = l := by
  simp [takeLast, Nat.sub_eq_zero_of_le h]

theorem takeLast_append_left (m : Nat) (l vs : List α) :
    takeLast m (takeLast m l ++ vs) = takeLast m (l ++ vs) := by
  unfold takeLast
  rw [← List.drop_append_of_le_length (show l.length - m ≤ l.length by omega)]
  rw [List.drop_drop]
  congr 1
  simp only [List.length_drop, List.length_append]
  omega

/-- Folding `dequeAppend` over a list of insertions keeps exactly the most
recent `m` elements of the virtual stream, provided the deque was within
capacity to begin with (FIFO eviction). -/
theorem foldl_dequeAppend_eq_takeLast (m : Nat) (q : List α) (vs : List α)
    (hq : q.length ≤ m) :
    List.foldl (dequeAppend m) q vs = takeLast m (q ++ vs) := by
  induction vs generalizing q with
  | nil => simp [takeLast_of_le m q hq]
  | cons v vs ih =>
      have step : List.foldl (dequeAppend m) q (v :: vs)
          = List.foldl (dequeAppend m) (dequeAppend m q v) vs := rfl
      rw [step, ih (dequeAppend m q v) (takeLast_length_le _ _),
        dequeAppend, takeLast_append_left]
      simp [List.append_assoc]

theorem length_mapWithIndex (f : Nat → α → β) (i : Nat) (l : List α) :
    (mapWithIndex f i l).length = l.length := by
  induction l generalizing i with
  | nil => rfl
  | cons a as ih => simp [mapWithIndex, ih]

theorem getElem?_mapWithIndex (f : Nat → α → β) (i c : Nat) (l : List α) :
    (mapWithIndex f i l)[c]? = (l[c]?).map (f (i + c)) := by
  induction l generalizing i c with
  | nil => simp [mapWithIndex]
  | cons a as ih =>
      cases c with
      | zero => simp [mapWithIndex]
      | succ c =>
          simp only [mapWithIndex, List.getElem?_cons_succ, ih]
          have h3 : i + 1 + c = i + (c + 1) := by omega
          rw [h3]

theorem bankQueue_update (e : ProtoEstimator) (features : List (List ℚ))
    (labels : List Nat) (c : Nat) :
    bankQueue (e.update_proto features labels) c =
      if c < e.MemoryBank.length then
        (if c ∈ labels then
          dequeAppend e.memory_length (bankQueue e c)
            (aveRow (features.head?.getD []).length features labels c)
        else bankQueue e c)
      else [] := by
  by_cases h : c < e.MemoryBank.length
  · simp only [bankQueue, ProtoEstimator.update_proto, h, if_pos,
      List.getD_eq_getElem?_getD, getElem?_mapWithIndex, Nat.zero_add,
      List.getElem?_eq_getElem h]
    rfl
  · have h1 : e.MemoryBank.length ≤ c := Nat.le_of_not_lt h
    simp only [bankQueue, ProtoEstimator.update_proto, h,
      List.getD_eq_getElem?_getD, getElem?_mapWithIndex, Nat.zero_add,
      List.getElem?_eq_none h1, if_false]
    simp

theorem memory_length_update (e : ProtoEstimator) (features : List (List ℚ))
    (labels : List Nat) :
    (e.update_proto features labels).memory_length = e.memory_length := rfl

theorem MemoryBank_length_update (e : ProtoEstimator)
    (features : List (List ℚ)) (labels : List Nat) :
    (e.update_proto features labels).MemoryBank.length
      = e.MemoryBank.length := by
  simp [ProtoEstimator.update_proto, length_mapWithIndex]

theorem memory_length_runUpdates (e : ProtoEstimator)
    (batches : List (List (List ℚ) × List Nat)) :
    (runUpdates e batches).memory_length = e.memory_length := by
  induction batches generalizing e with
  | nil => rfl
  | cons b bs ih => exact ih _

theorem bankQueue_length_le (e : ProtoEstimator)
    (batches : List (List (List ℚ) × List Nat)) (c : Nat)
    (h : (bankQueue e c).length ≤ e.memory_length) :
    (bankQueue (runUpdates e batches) c).length ≤ e.memory_length := by
  induction batches generalizing e with
  | nil => exact h
  | cons b bs ih =>
      have step : runUpdates e (b :: bs) =
          runUpdates (e.update_proto b.1 b.2) bs := rfl
      rw [step]
      have h2 : (bankQueue (e.update_proto b.1 b.2) c).length ≤
          (e.update_proto b.1 b.2).memory_length := by
        rw [memory_length_update, bankQueue_update]
        by_cases hc : c < e.MemoryBank.length
        · simp only [hc, if_pos]
          by_cases hm : c ∈ b.2
          · simp only [hm, if_pos]
            exact takeLast_length_le _ _
          · simp only [hm, if_neg, not_false_iff]
            exact h
        · simp [hc]
      have := ih (e.update_proto b.1 b.2) h2
      rwa [memory_length_update] at this

theorem bankQueue_init (dim cn m c : Nat) :
    bankQueue (ProtoEstimator.init dim cn m) c =
      if c < cn then takeLast m [zeroVec dim] else [] := by
  by_cases h : c < cn
  · have h2 : c < (List.replicate cn (takeLast m [zeroVec dim])).length := by
      simpa using h
    simp only [bankQueue, ProtoEstimator.init, h, if_pos,
      List.getD_eq_getElem?_getD, List.getElem?_eq_getElem h2]
    simp
  · have h2 : (List.replicate cn (takeLast m [zeroVec dim])).length ≤ c := by
      simpa using Nat.le_of_not_lt h
    simp only [bankQueue, ProtoEstimator.init, h, if_neg,
      List.getD_eq_getElem?_getD, List.getElem?_eq_none h2,
      Option.getD_none, if_false]

theorem bankQueue_init_length_le (dim cn m c : Nat) :
    (bankQueue (ProtoEstimator.init dim cn m) c).length ≤ m := by
  rw [bankQueue_init]
  by_cases h : c < cn
  · simpa [h] using takeLast_length_le m [zeroVec dim]
  · simp [h]

theorem getD_mapWithIndex (f : Nat → α → α) (g : List α) (r : Nat)
    (h : r < g.length) (d : α) :
    (mapWithIndex f 0 g).getD r d = f r (g.getD r d) := by
  rw [List.getD_eq_getElem?_getD, getElem?_mapWithIndex, Nat.zero_add,
    List.getElem?_eq_getElem h, List.getD_eq_getElem?_getD,
    List.getElem?_eq_getElem h]
  simp

theorem mem_mapWithIndex {f : Nat → α → β} {i : Nat} {l : List α} {b : β}
    (h : b ∈ mapWithIndex f i l) : ∃ j, ∃ a ∈ l, b = f j a := by
  induction l generalizing i with
  | nil => simp [mapWithIndex] at h
  | cons x xs ih =>
      simp only [mapWithIndex, List.mem_cons] at h
      rcases h with h | h
      · exact ⟨i, x, by simp, h⟩
      · rcases ih h with ⟨j, a, ha, hb⟩
        exact ⟨j, a, by simp [ha], hb⟩

theorem getD_replicate_lt (n : Nat) (x d : α) (i : Nat) (h : i < n) :
    (List.replicate n x).getD i d = x := by
  rw [List.getD_eq_getElem?_getD,
    List.getElem?_eq_getElem (by simpa using h)]
  simp

theorem length_zeroTopRows (top : Nat) (g : List (List ℚ)) :
    (zeroTopRows top g).length = g.length :=
  length_mapWithIndex _ _ _

theorem length_zeroBottomRows (bottom : Nat) (g : List (List ℚ)) :
    (zeroBottomRows bottom g).length = g.length :=
  length_mapWithIndex _ _ _

theorem getD_zeroTopRows (top : Nat) (g : List (List ℚ)) (r : Nat)
    (h : r < g.length) :
    (zeroTopRows top g).getD r []
      = if r < top then zeroRow (g.getD r []) else g.getD r [] :=
  getD_mapWithIndex _ g r h []

theorem getD_zeroBottomRows (bottom : Nat) (g : List (List ℚ)) (r : Nat)
    (h : r < g.length) :
    (zeroBottomRows bottom g).getD r []
      = if g.length - bottom ≤ r then zeroRow (g.getD r [])
        else g.getD r [] :=
  getD_mapWithIndex _ g r h []

theorem rows_zeroTopRows {top : Nat} {g : List (List ℚ)} {row : List ℚ}
    (h : row ∈ zeroTopRows top g) :
    ∃ row2 ∈ g, row = zeroRow row2 ∨ row = row2 := by
  rcases mem_mapWithIndex h with ⟨j, a, ha, hb⟩
  refine ⟨a, ha, ?_⟩
  by_cases hj : j < top <;> simp [hj] at hb <;> simp [hb]

theorem rows_zeroBottomRows {bottom : Nat} {g : List (List ℚ)}
    {row : List ℚ} (h : row ∈ zeroBottomRows bottom g) :
    ∃ row2 ∈ g, row = zeroRow row2 ∨ row = row2 := by
  rcases mem_mapWithIndex h with ⟨j, a, ha, hb⟩
  refine ⟨a, ha, ?_⟩
  by_cases hj : g.length - bottom ≤ j <;> simp [hj] at hb <;> simp [hb]

/-- Every spatial row of the pseudo-weight tensor is either an all-zero row
or an all-`s` row of width `W`. -/
theorem rows_pseudoWeightTensor (s : ℚ) (B H W top bottom : Nat) :
    ∀ g ∈ pseudoWeightTensor s B H W top bottom, ∀ row ∈ g,
      row = List.replicate W (0 : ℚ) ∨ row = List.replicate W s := by
  intro g hg row hrow
  have base : ∀ row2 ∈ List.replicate H (List.replicate W s),
      row2 = List.replicate W s := by
    intro row2 h2
    exact List.eq_of_mem_replicate h2
  unfold pseudoWeightTensor at hg
  by_cases h1 : 0 < top <;> by_cases h2 : 0 < bottom <;>
    simp only [h1, h2, if_true, if_false, List.map_replicate,
      List.mem_replicate] at hg <;>
    rcases hg with ⟨-, hg⟩ <;> subst hg
  · rcases rows_zeroBottomRows hrow with ⟨row2, hrow2, hcase⟩
    rcases rows_zeroTopRows hrow2 with ⟨row3, hrow3, hcase2⟩
    have h3 := base row3 hrow3
    subst h3
    rcases hcase2 with h4 | h4 <;> rcases hcase with h5 | h5 <;>
      simp [h4, h5, zeroRow, List.map_replicate]
  · rcases rows_zeroTopRows hrow with ⟨row3, hrow3, hcase2⟩
    have h3 := base row3 hrow3
    subst h3
    rcases hcase2 with h4 | h4 <;> simp [h4, zeroRow, List.map_replicate]
  · rcases rows_zeroBottomRows hrow with ⟨row3, hrow3, hcase2⟩
    have h3 := base row3 hrow3
    subst h3
    rcases hcase2 with h4 | h4 <;> simp [h4, zeroRow, List.map_replicate]
  · have h3 := base row hrow
    simp [h3]

/-- Pointwise value of a mask composite: entry `(r, c)` of `mixGrid` picks
the source entry where the mask is 1 and the target entry otherwise. -/
theorem gridEntry_mixGrid (mask : List (List Nat)) (a b : List (List α))
    (H W : Nat) (hm : isGrid H W mask) (ha : isGrid H W a)
    (hb : isGrid H W b) (r c : Nat) (hr : r < H) (hc : c < W) (d : α) :
    gridEntry (mixGrid mask a b) r c d
      = mixPixel (gridEntry mask r c 0) (gridEntry a r c d)
          (gridEntry b r c d) := by
  obtain ⟨hm1, hm2⟩ := hm
  obtain ⟨ha1, ha2⟩ := ha
  obtain ⟨hb1, hb2⟩ := hb
  have hmr : r < mask.length := by rw [hm1]; exact hr
  have har : r < a.length := by rw [ha1]; exact hr
  have hbr : r < b.length := by rw [hb1]; exact hr
  have hmixr : r < (mixGrid mask a b).length := by
    rw [mixGrid, List.length_zipWith, List.length_zip, hm1, ha1, hb1]
    simpa using hr
  have hrowm : mask[r].length = W := hm2 _ (List.getElem_mem hmr)
  have hrowa : a[r].length = W := ha2 _ (List.getElem_mem har)
  have hrowb : b[r].length = W := hb2 _ (List.getElem_mem hbr)
  have hcm : c < mask[r].length := by rw [hrowm]; exact hc
  have hca : c < a[r].length := by rw [hrowa]; exact hc
  have hcb : c < b[r].length := by rw [hrowb]; exact hc
  have hcin : c < (List.zipWith (fun m p => mixPixel m p.1 p.2) mask[r]
      (a[r].zip b[r])).length := by
    rw [List.length_zipWith, List.length_zip, hrowm, hrowa, hrowb]
    simpa using hc
  have hrowmix : (mixGrid mask a b)[r]
      = List.zipWith (fun m p => mixPixel m p.1 p.2) mask[r]
          (a[r].zip b[r]) := by
    simp only [mixGrid, List.getElem_zipWith, List.getElem_zip]
  simp only [gridEntry, List.getD_eq_getElem?_getD,
    List.getElem?_eq_getElem hmixr, List.getElem?_eq_getElem hmr,
    List.getElem?_eq_getElem har, List.getElem?_eq_getElem hbr,
    Option.getD_some, hrowmix, List.getElem?_eq_getElem hcin,
    List.getElem?_eq_getElem hcm, List.getElem?_eq_getElem hca,
    List.getElem?_eq_getElem hcb, List.getElem_zipWith, List.getElem_zip]

/-- Pointwise value of the pseudo-weight tensor at in-range indices. -/
theorem pseudoWeightTensor_getD (s : ℚ) (B H W top bottom b r c : Nat)
    (hb : b < B) (hr : r < H) (hc : c < W) (htop : 0 < top)
    (hbot : 0 < bottom) :
    gridEntry ((pseudoWeightTensor s B H W top bottom).getD b []) r c 0
      = if r < top ∨ H - bottom ≤ r then 0 else s := by
  unfold pseudoWeightTensor
  simp only [htop, hbot, if_true, List.map_replicate]
  rw [getD_replicate_lt _ _ _ _ hb]
  unfold gridEntry
  have hlen : r <
      (zeroTopRows top (List.replicate H (List.replicate W s))).length := by
    rw [length_zeroTopRows]
    simpa using hr
  rw [getD_zeroBottomRows _ _ _ hlen, length_zeroTopRows,
    getD_zeroTopRows _ _ _ (by simpa using hr),
    getD_replicate_lt _ _ _ _ hr, List.length_replicate]
  by_cases h4 : r < top <;> by_cases h5 : H - bottom ≤ r <;>
    simp [h4, h5, hc, zeroRow, List.map_replicate, List.getElem?_replicate,
      getD_replicate_lt _ _ _ _ hc]

theorem dequeAppend_ne_nil (m : Nat) (q : List α) (v : α) (hm : 1 ≤ m) :
    dequeAppend m q v ≠ [] := by
  have hlen : 0 < (dequeAppend m q v).length := by
    rw [dequeAppend, takeLast_length]
    simp only [List.length_append, List.length_singleton]
    omega
  exact List.length_pos.mp hlen

theorem bankQueue_runUpdates_ne_nil (e : ProtoEstimator)
    (batches : List (List (List ℚ) × List Nat)) (c : Nat)
    (hm : 1 ≤ e.memory_length) (hc : c < e.MemoryBank.length)
    (h : bankQueue e c ≠ []) :
    bankQueue (runUpdates e batches) c ≠ [] := by
  induction batches generalizing e with
  | nil => exact h
  | cons b bs ih =>
      have step : runUpdates e (b :: bs) =
          runUpdates (e.update_proto b.1 b.2) bs := rfl
      rw [step]
      refine ih (e.update_proto b.1 b.2) ?_ ?_ ?_
      · rwa [memory_length_update]
      · rwa [MemoryBank_length_update]
      · rw [bankQueue_update, if_pos hc]
        by_cases hmem : c ∈ b.2
        · rw [if_pos hmem]
          exact dequeAppend_ne_nil _ _ _ hm
        · rwa [if_neg hmem]

theorem bankQueue_eq_nil_of_le (e : ProtoEstimator) (c : Nat)
    (h : e.MemoryBank.length ≤ c) : bankQueue e c = [] := by
  simp [bankQueue, List.getD_eq_getElem?_getD, List.getElem?_eq_none h]

/-- The trusted-pixel count is the number of confidences reaching the
threshold. -/
theorem trustedCount_eq (probs : List ℚ) (thr : ℚ) :
    trustedCount probs thr = (probs.filter (fun p => thr ≤ p)).length := by
  simp only [trustedCount, psLargeP, List.filter_map, List.length_map]
  rfl

/-- With a zero scalar the whole weight tensor is uniformly zero, whatever
the border configuration is. -/
theorem pseudoWeightTensor_zero (B H W top bottom : Nat) :
    pseudoWeightTensor 0 B H W top bottom
      = List.replicate B (List.replicate H (List.replicate W (0 : ℚ))) := by
  rw [List.eq_replicate_iff]
  constructor
  · by_cases h1 : 0 < top <;> by_cases h2 : 0 < bottom <;>
      simp [pseudoWeightTensor, h1, h2]
  · intro g hg
    rw [List.eq_replicate_iff]
    constructor
    · revert hg
      unfold pseudoWeightTensor
      by_cases h1 : 0 < top <;> by_cases h2 : 0 < bottom <;>
        simp only [h1, h2, if_true, if_false, List.map_replicate,
          List.mem_replicate] <;>
        (intro hg
         rcases hg with ⟨-, hg⟩
         subst hg) <;>
        simp [length_zeroBottomRows, length_zeroTopRows]
    · intro row hrow
      rcases rows_pseudoWeightTensor 0 B H W top bottom g hg row hrow
        with h | h <;> simpa using h

/-- If every weight is zero, the weighted per-pixel loss accumulates to
zero, with no special-case branch. -/
theorem weightedPixelLoss_zero (weights losses : List ℚ)
    (h : ∀ w ∈ weights, w = 0) :
    weightedPixelLoss weights losses = 0 := by
  induction weights generalizing losses with
  | nil => simp [weightedPixelLoss]
  | cons w ws ih =>
      cases losses with
      | nil => simp [weightedPixelLoss]
      | cons l ls =>
          have hw : w = 0 := h w (by simp)
          have hrest := ih ls (fun w2 h2 => h w2 (by simp [h2]))
          simp only [weightedPixelLoss, List.zipWith_cons_cons,
            List.sum_cons] at hrest ⊢
          simp [hw, hrest]

/-! # Claims -/

/-- C1: for every class and every update sequence, the memory-bank queue
length never exceeds `memory_length`; a deque within capacity evolves by
FIFO eviction, so once more than `memory_length` entries have been inserted
only the most recent `memory_length` survive, in insertion order
(`takeLast` of the insertion stream); and in the concrete scenario
`memory_length = 3` where class 2 receives the mean vectors
`[1], [2], [3], [4]` across four updates, its queue afterwards is exactly
`[[2], [3], [4]]` — the zero-vector seed and the first mean were evicted. -/
theorem C1_memory_bank_capacity_and_fifo :
    (∀ (dim cn m : Nat) (batches : List (List (List ℚ) × List Nat)) (c : Nat),
      (bankQueue (runUpdates (ProtoEstimator.init dim cn m) batches) c).length
        ≤ m)
    ∧ (∀ (m : Nat) (q vs : List (List ℚ)), q.length ≤ m →
        List.foldl (dequeAppend m) q vs = takeLast m (q ++ vs))
    ∧ bankQueue (runUpdates (ProtoEstimator.init 1 3 3)
        [([[1]], [2]), ([[2]], [2]), ([[3]], [2]), ([[4]], [2])]) 2
        = [[2], [3], [4]] := by
  refine ⟨?_, ?_, ?_⟩
  · intro dim cn m batches c
    exact bankQueue_length_le (ProtoEstimator.init dim cn m) batches c
      (bankQueue_init_length_le dim cn m c)
  · exact fun m q vs h => foldl_dequeAppend_eq_takeLast m q vs h
  · norm_num [runUpdates, ProtoEstimator.update_proto, ProtoEstimator.init,
      bankQueue, mapWithIndex, dequeAppend, takeLast, zeroVec, aveRow,
      classSum, classCount, vecAdd, List.foldl]

/-- Witness for C1 at concrete inputs: the scenario queue respects the
capacity 3, and the FIFO law applied to the seeded queue `[[0]]` with four
insertions. -/
theorem C1_memory_bank_capacity_and_fifo_witness :
    (([[(0 : ℚ)]] : List (List ℚ)).length ≤ 3)
    ∧ List.foldl (dequeAppend 3) [[(0 : ℚ)]] [[1], [2], [3], [4]]
        = takeLast 3 ([[(0 : ℚ)]] ++ [[1], [2], [3], [4]]) :=
  ⟨by simp,
   C1_memory_bank_capacity_and_fifo.2.1 3 [[0]] [[1], [2], [3], [4]] (by simp)⟩

/-- C2: for every nonempty target batch, the trust-weight scalar
`pseudo_weight_` equals the number of pixels whose confidence reaches
`pseudo_threshold` divided by the total number of pixels in the batch, and
therefore lies in `[0, 1]`; this is the value before any border
suppression is applied. -/
theorem C2_trust_weight_scalar (probs : List ℚ) (thr : ℚ) (h : probs ≠ []) :
    pseudoWeightScalar probs thr
      = (trustedCount probs thr : ℚ) / (probs.length : ℚ)
    ∧ trustedCount probs thr = (probs.filter (fun p => thr ≤ p)).length
    ∧ 0 ≤ pseudoWeightScalar probs thr
    ∧ pseudoWeightScalar probs thr ≤ 1 := by
  have hcount : trustedCount probs thr
      = (probs.filter (fun p => thr ≤ p)).length := trustedCount_eq probs thr
  have hlen : trustedCount probs thr ≤ probs.length := by
    rw [hcount]
    exact List.length_filter_le _ _
  have hpos : (0 : ℚ) < (probs.length : ℚ) := by
    have : 0 < probs.length := List.length_pos.mpr h
    exact_mod_cast this
  refine ⟨rfl, hcount, ?_, ?_⟩
  · exact div_nonneg (by positivity) (le_of_lt hpos)
  · rw [pseudoWeightScalar, div_le_one hpos]
    exact_mod_cast hlen

/-- Witness for C2: a two-pixel batch with confidences 9/10 and 1/2 against
threshold 3/4. -/
theorem C2_trust_weight_scalar_witness :
    (([(9 : ℚ)/10, 1/2] : List ℚ) ≠ [])
    ∧ (pseudoWeightScalar [(9 : ℚ)/10, 1/2] (3/4)
        = (trustedCount [(9 : ℚ)/10, 1/2] (3/4) : ℚ)
            / (([(9 : ℚ)/10, 1/2] : List ℚ).length : ℚ)
      ∧ trustedCount [(9 : ℚ)/10, 1/2] (3/4)
          = (([(9 : ℚ)/10, 1/2] : List ℚ).filter (fun p => (3:ℚ)/4 ≤ p)).length
      ∧ 0 ≤ pseudoWeightScalar [(9 : ℚ)/10, 1/2] (3/4)
      ∧ pseudoWeightScalar [(9 : ℚ)/10, 1/2] (3/4) ≤ 1) :=
  ⟨by simp, C2_trust_weight_scalar [(9 : ℚ)/10, 1/2] (3/4) (by simp)⟩

/-- C3: the contrastive loss term is among the loss terms computed and
back-propagated by a training step exactly when the iteration counter has
reached `start_distribution_iter`; before the warm-up it is omitted
entirely — it occurs zero times in the loss-term list, rather than being
present with weight zero. -/
theorem C3_contrastive_warmup_gate (enable_fdist : Bool) (local_iter : Nat) :
    ("contrastive loss" ∈ forwardTrainLossTerms enable_fdist local_iter
        ↔ startDistributionIter ≤ local_iter)
    ∧ ((forwardTrainLossTerms enable_fdist local_iter).count "contrastive loss"
        = if startDistributionIter ≤ local_iter then 1 else 0) := by
  cases enable_fdist <;> by_cases h : startDistributionIter ≤ local_iter <;>
    simp [forwardTrainLossTerms, h]

/-- C10: the bank-update phase runs only when the flattened pseudo-label
map has exactly `2 * 1 * 512 * 512` elements — `view(2, 1, 512, 512)`
succeeds precisely then — and for any other element count the step raises
before `update_proto` runs, leaving the memory bank untouched and the
contrastive and distillation losses unreached. -/
theorem C10_reshape_gate (est : ProtoEstimator) (feat : List (List ℚ))
    (mask : List Nat) :
    (∀ pl : List Nat,
      (bankUpdatePhase est pl feat mask).isSome
        ↔ pl.length = 2 * 1 * 512 * 512)
    ∧ (∀ pl : List Nat, pl.length ≠ 2 * 1 * 512 * 512 →
        bankUpdatePhase est pl feat mask = none) := by
  constructor
  · intro pl
    by_cases h : pl.length = 2 * 1 * 512 * 512 <;>
      simp [bankUpdatePhase, tensorView, h]
  · intro pl h
    simp [bankUpdatePhase, tensorView, h]

/-- Witness for C10: a one-pixel pseudo-label map aborts the bank-update
phase. -/
theorem C10_reshape_gate_witness :
    (([0] : List Nat).length ≠ 2 * 1 * 512 * 512)
    ∧ bankUpdatePhase (ProtoEstimator.init 1 1 1) [0] [] [] = none :=
  ⟨by decide, (C10_reshape_gate (ProtoEstimator.init 1 1 1) [] []).2 [0]
    (by decide)⟩

/-- C5: whenever `ignore_top > 0` and `ignore_bottom > 0`, the weight map
produced by pseudo-label generation has the shape of the label map
(`B` batch elements of `H×W`), its first `ignore_top` rows and its last
`ignore_bottom` rows are exactly 0 regardless of the underlying
confidences, every other entry equals the trust-weight scalar `s`, and
every stored value is either 0 or `s`. -/
theorem C5_weight_map_border_rows (s : ℚ) (B H W top bottom : Nat)
    (htop : 0 < top) (hbot : 0 < bottom) :
    (pseudoWeightTensor s B H W top bottom).length = B
    ∧ (∀ g ∈ pseudoWeightTensor s B H W top bottom,
        g.length = H ∧ ∀ row ∈ g, row.length = W)
    ∧ (∀ b r c, b < B → r < H → c < W →
        gridEntry ((pseudoWeightTensor s B H W top bottom).getD b []) r c 0
          = if r < top ∨ H - bottom ≤ r then 0 else s)
    ∧ (∀ x ∈ ((pseudoWeightTensor s B H W top bottom).flatten).flatten,
        x = 0 ∨ x = s) := by
  refine ⟨?_, ?_, ?_, ?_⟩
  · simp [pseudoWeightTensor, htop, hbot]
  · intro g hg
    constructor
    · unfold pseudoWeightTensor at hg
      simp only [htop, hbot, if_true, List.map_replicate,
        List.mem_replicate] at hg
      rcases hg with ⟨-, hg⟩
      subst hg
      rw [length_zeroBottomRows, length_zeroTopRows, List.length_replicate]
    · intro row hrow
      rcases rows_pseudoWeightTensor s B H W top bottom g hg row hrow
        with h | h <;> simp [h]
  · intro b r c hb hr hc
    exact pseudoWeightTensor_getD s B H W top bottom b r c hb hr hc htop hbot
  · intro x hx
    rw [List.mem_flatten] at hx
    rcases hx with ⟨row, hrow, hx⟩
    rw [List.mem_flatten] at hrow
    rcases hrow with ⟨g, hg, hrow⟩
    rcases rows_pseudoWeightTensor s B H W top bottom g hg row hrow
      with h | h
    · left
      subst h
      exact List.eq_of_mem_replicate hx
    · right
      subst h
      exact List.eq_of_mem_replicate hx

/-- Witness for C5 at `s = 1/2`, one batch element of size `4×2`,
`ignore_top = ignore_bottom = 1`: a top-row entry is 0 and an interior
entry equals the scalar. -/
theorem C5_weight_map_border_rows_witness :
    gridEntry ((pseudoWeightTensor ((1 : ℚ)/2) 1 4 2 1 1).getD 0 []) 0 0 0 = 0
    ∧ gridEntry ((pseudoWeightTensor ((1 : ℚ)/2) 1 4 2 1 1).getD 0 []) 1 0 0
        = (1 : ℚ)/2 := by
  have h := C5_weight_map_border_rows ((1 : ℚ)/2) 1 4 2 1 1
    (by decide) (by decide)
  constructor
  · rw [h.2.2.1 0 0 0 (by decide) (by decide) (by decide)]
    norm_num
  · rw [h.2.2.1 0 1 0 (by decide) (by decide) (by decide)]
    norm_num

/-- C8: a batch in which no pixel reaches the confidence threshold is not
an error: the trust-weight scalar is 0, the whole weight tensor is
uniformly 0 (whatever the border configuration), the scaled KL
distillation term is 0, and the weighted per-pixel loss consuming the
weight map accumulates to 0, all through the ordinary code path. -/
theorem C8_zero_confident_pixels (probs : List ℚ) (thr : ℚ)
    (B H W top bottom : Nat) (kl : ℚ) (losses : List ℚ)
    (h : ∀ p ∈ probs, p < thr) :
    pseudoWeightScalar probs thr = 0
    ∧ pseudoWeightTensor (pseudoWeightScalar probs thr) B H W top bottom
        = List.replicate B (List.replicate H (List.replicate W 0))
    ∧ klLossScaled (pseudoWeightScalar probs thr) kl = 0
    ∧ weightedPixelLoss
        (((pseudoWeightTensor (pseudoWeightScalar probs thr)
            B H W top bottom).flatten).flatten) losses = 0 := by
  have hcnt : trustedCount probs thr = 0 := by
    rw [trustedCount_eq, List.length_eq_zero, List.filter_eq_nil_iff]
    intro a ha
    simpa using not_le.mpr (h a ha)
  have hzero : pseudoWeightScalar probs thr = 0 := by
    simp [pseudoWeightScalar, hcnt]
  refine ⟨hzero, ?_, ?_, ?_⟩
  · rw [hzero, pseudoWeightTensor_zero]
  · simp [klLossScaled, hzero]
  · rw [hzero, pseudoWeightTensor_zero]
    apply weightedPixelLoss_zero
    intro w hw
    simp only [List.mem_flatten] at hw
    rcases hw with ⟨row, ⟨g, hg, hrow⟩, hwin⟩
    have hg2 := List.eq_of_mem_replicate hg
    subst hg2
    have hrow2 := List.eq_of_mem_replicate hrow
    subst hrow2
    exact List.eq_of_mem_replicate hwin

/-- Witness for C8: a two-pixel batch with confidences 1/2 and 1/4 against
threshold 3/4, a `1×2×2` weight tensor with one-row border suppression,
KL value 5 and arbitrary per-pixel losses. -/
theorem C8_zero_confident_pixels_witness :
    pseudoWeightScalar [(1 : ℚ)/2, 1/4] (3/4) = 0
    ∧ pseudoWeightTensor (pseudoWeightScalar [(1 : ℚ)/2, 1/4] (3/4)) 1 2 2 1 1
        = List.replicate 1 (List.replicate 2 (List.replicate 2 0))
    ∧ klLossScaled (pseudoWeightScalar [(1 : ℚ)/2, 1/4] (3/4)) 5 = 0
    ∧ weightedPixelLoss
        (((pseudoWeightTensor (pseudoWeightScalar [(1 : ℚ)/2, 1/4] (3/4))
            1 2 2 1 1).flatten).flatten) [1, 2, 3, 4] = 0 :=
  C8_zero_confident_pixels [(1 : ℚ)/2, 1/4] (3/4) 1 2 2 1 1 5 [1, 2, 3, 4]
    (by intro p hp; rcases List.mem_pair.mp hp with h | h <;> rw [h] <;>
      norm_num)

/-- C6: one call of `update_proto(features, labels)` appends, for exactly
the classes present among `labels` (and within the bank's index range),
one new entry to that class's queue — the mean feature vector over that
class's pixels in the batch, i.e. the class's feature sum divided by its
pixel count, which is positive for a present class so the empty-class
clamp is inert — while every class absent from `labels` keeps its queue
unchanged. -/
theorem C6_update_touches_present_classes (e : ProtoEstimator)
    (features : List (List ℚ)) (labels : List Nat) :
    (∀ c ∈ labels, c < e.MemoryBank.length →
      bankQueue (e.update_proto features labels) c
        = dequeAppend e.memory_length (bankQueue e c)
            (aveRow (features.head?.getD []).length features labels c)
      ∧ aveRow (features.head?.getD []).length features labels c
          = (classSum (features.head?.getD []).length features labels c).map
              (fun x => x / (classCount labels c : ℚ))
      ∧ 0 < classCount labels c)
    ∧ (∀ c, c ∉ labels →
        bankQueue (e.update_proto features labels) c = bankQueue e c) := by
  constructor
  · intro c hmem hlt
    have hcnt : 0 < classCount labels c := by
      apply List.length_pos.mpr
      intro hnil
      have : c ∈ labels.filter (fun l => l = c) :=
        List.mem_filter.mpr ⟨hmem, by simp⟩
      rw [hnil] at this
      exact List.not_mem_nil c this
    refine ⟨?_, ?_, hcnt⟩
    · rw [bankQueue_update]
      simp [hlt, hmem]
    · have hne : ¬classCount labels c = 0 := Nat.pos_iff_ne_zero.mp hcnt
      simp [aveRow, hne]
  · intro c hmem
    rw [bankQueue_update]
    by_cases hlt : c < e.MemoryBank.length
    · simp [hlt, hmem]
    · rw [if_neg hlt, bankQueue_eq_nil_of_le e c (Nat.le_of_not_lt hlt)]

/-- Witness for C6 on a fresh two-class bank: a one-pixel batch of class 0
appends its mean to queue 0 and leaves queue 1 unchanged. -/
theorem C6_update_touches_present_classes_witness :
    (bankQueue ((ProtoEstimator.init 1 2 3).update_proto [[5]] [0]) 0
        = dequeAppend 3 (bankQueue (ProtoEstimator.init 1 2 3) 0)
            (aveRow (([[5]] : List (List ℚ)).head?.getD []).length [[5]] [0] 0)
      ∧ aveRow (([[5]] : List (List ℚ)).head?.getD []).length [[5]] [0] 0
          = (classSum (([[5]] : List (List ℚ)).head?.getD []).length
              [[5]] [0] 0).map (fun x => x / (classCount [0] 0 : ℚ))
      ∧ 0 < classCount [0] 0)
    ∧ bankQueue ((ProtoEstimator.init 1 2 3).update_proto [[5]] [0]) 1
        = bankQueue (ProtoEstimator.init 1 2 3) 1 :=
  ⟨(C6_update_touches_present_classes (ProtoEstimator.init 1 2 3)
      [[5]] [0]).1 0 (by decide) (by decide),
   (C6_update_touches_present_classes (ProtoEstimator.init 1 2 3)
      [[5]] [0]).2 1 (by decide)⟩

/-- C7 counterexample: `ProtoEstimator.__init__` seeds the queues only in
the fresh branch.  Resuming from a snapshot that lacks the `MemoryBank`
key leaves `self.MemoryBank` unset, so the very first read for class 0
fails — refuting the claim that the bank is seeded at construction
"including when resuming from a snapshot" and that a read never fails. -/
theorem C7_resume_read_can_fail :
    readBankAtInit 1 1 3
      (some { CoVariance := [[0]], Ave := [[0]], Amount := [0],
              MemoryBank := none }) 0 = none := rfl

/-- C7 (amended): when the estimator is constructed fresh (no resume
snapshot) with `memory_length ≥ 1`, every class id below `class_num` is
seeded with one zero vector, the read succeeds at construction, and the
queue stays non-empty at every later point of the session, over any
sequence of updates; when resuming, the bank comes from the snapshot and
no seeding is guaranteed. -/
theorem C7_fresh_bank_never_empty (dim cn m c : Nat)
    (batches : List (List (List ℚ) × List Nat))
    (hm : 1 ≤ m) (hc : c < cn) :
    readBankAtInit dim cn m none c = some [zeroVec dim]
    ∧ bankQueue (runUpdates (ProtoEstimator.init dim cn m) batches) c ≠ [] := by
  have hseed : takeLast m [zeroVec dim] = [zeroVec dim] :=
    takeLast_of_le m [zeroVec dim] (by simpa using hm)
  constructor
  · simp [readBankAtInit, memoryBankAtInit, List.getElem?_replicate, hc, hseed]
  · refine bankQueue_runUpdates_ne_nil _ batches c hm ?_ ?_
    · simpa [ProtoEstimator.init] using hc
    · rw [bankQueue_init, if_pos hc, hseed]
      simp

/-- Witness for C7 (amended): a fresh 3-class bank of capacity 2, class 0,
one update batch. -/
theorem C7_fresh_bank_never_empty_witness :
    readBankAtInit 1 3 2 none 0 = some [zeroVec 1]
    ∧ bankQueue (runUpdates (ProtoEstimator.init 1 3 2) [([[7]], [0])]) 0
        ≠ [] :=
  C7_fresh_bank_never_empty 1 3 2 0 [([[7]], [0])] (by decide) (by decide)

/-- C4 (modelled from the spec, `strong_transform`/`one_mix` being outside
src/): for every in-range pixel of a sample, where the mix mask is 1 the
mixed label equals the source ground-truth label, the mixed weight equals
the uniform ground-truth weight, and the mixed image equals the source
image; where the mask is 0 all three take the corresponding target values
(pseudo-label, trust weight, target image) — image, label and weight are
composited with the identical mask, so they stay spatially aligned. -/
theorem C4_mix_mask_provenance (mask : List (List Nat))
    (srcImg tgtImg gtW tgtW : List (List ℚ))
    (srcLbl tgtLbl : List (List Nat)) (H W : Nat)
    (hmask : isGrid H W mask) (hsi : isGrid H W srcImg)
    (hti : isGrid H W tgtImg) (hsl : isGrid H W srcLbl)
    (htl : isGrid H W tgtLbl) (hgw : isGrid H W gtW) (htw : isGrid H W tgtW)
    (r c : Nat) (hr : r < H) (hc : c < W) :
    (gridEntry mask r c 0 = 1 →
      gridEntry (domainMix mask srcImg tgtImg srcLbl tgtLbl gtW tgtW).label
          r c 0 = gridEntry srcLbl r c 0
      ∧ gridEntry (domainMix mask srcImg tgtImg srcLbl tgtLbl gtW tgtW).weight
          r c 0 = gridEntry gtW r c 0
      ∧ gridEntry (domainMix mask srcImg tgtImg srcLbl tgtLbl gtW tgtW).image
          r c 0 = gridEntry srcImg r c 0)
    ∧ (gridEntry mask r c 0 = 0 →
      gridEntry (domainMix mask srcImg tgtImg srcLbl tgtLbl gtW tgtW).label
          r c 0 = gridEntry tgtLbl r c 0
      ∧ gridEntry (domainMix mask srcImg tgtImg srcLbl tgtLbl gtW tgtW).weight
          r c 0 = gridEntry tgtW r c 0
      ∧ gridEntry (domainMix mask srcImg tgtImg srcLbl tgtLbl gtW tgtW).image
          r c 0 = gridEntry tgtImg r c 0) := by
  have hl := gridEntry_mixGrid mask srcLbl tgtLbl H W hmask hsl htl r c hr hc 0
  have hw := gridEntry_mixGrid mask gtW tgtW H W hmask hgw htw r c hr hc 0
  have hi := gridEntry_mixGrid mask srcImg tgtImg H W hmask hsi hti r c hr hc 0
  constructor
  · intro h1
    rw [h1] at hl hw hi
    simp only [domainMix]
    exact ⟨by rw [hl]; simp [mixPixel], by rw [hw]; simp [mixPixel],
      by rw [hi]; simp [mixPixel]⟩
  · intro h0
    rw [h0] at hl hw hi
    simp only [domainMix]
    exact ⟨by rw [hl]; simp [mixPixel], by rw [hw]; simp [mixPixel],
      by rw [hi]; simp [mixPixel]⟩

/-- Witness for C4 on a `1×2` sample whose mask is `[1, 0]`: the first
pixel keeps all three source values, the second keeps all three target
values. -/
theorem C4_mix_mask_provenance_witness :
    (gridEntry (domainMix [[1, 0]] [[2, 2]] [[9, 9]] [[3, 3]] [[7, 7]]
        [[1, 1]] [[5, 5]]).label 0 0 0 = gridEntry [[3, 3]] 0 0 0
      ∧ gridEntry (domainMix [[1, 0]] [[2, 2]] [[9, 9]] [[3, 3]] [[7, 7]]
          [[1, 1]] [[5, 5]]).weight 0 0 0 = gridEntry [[(1 : ℚ), 1]] 0 0 0
      ∧ gridEntry (domainMix [[1, 0]] [[2, 2]] [[9, 9]] [[3, 3]] [[7, 7]]
          [[1, 1]] [[5, 5]]).image 0 0 0 = gridEntry [[(2 : ℚ), 2]] 0 0 0)
    ∧ (gridEntry (domainMix [[1, 0]] [[2, 2]] [[9, 9]] [[3, 3]] [[7, 7]]
          [[1, 1]] [[5, 5]]).label 0 1 0 = gridEntry [[7, 7]] 0 1 0
      ∧ gridEntry (domainMix [[1, 0]] [[2, 2]] [[9, 9]] [[3, 3]] [[7, 7]]
          [[1, 1]] [[5, 5]]).weight 0 1 0 = gridEntry [[(5 : ℚ), 5]] 0 1 0
      ∧ gridEntry (domainMix [[1, 0]] [[2, 2]] [[9, 9]] [[3, 3]] [[7, 7]]
          [[1, 1]] [[5, 5]]).image 0 1 0 = gridEntry [[(9 : ℚ), 9]] 0 1 0) :=
  ⟨(C4_mix_mask_provenance [[1, 0]] [[2, 2]] [[9, 9]] [[1, 1]] [[5, 5]]
      [[3, 3]] [[7, 7]] 1 2 (by decide) (by decide) (by decide) (by decide)
      (by decide) (by decide) (by decide) 0 0 (by decide) (by decide)).1
      (by decide),
   (C4_mix_mask_provenance [[1, 0]] [[2, 2]] [[9, 9]] [[1, 1]] [[5, 5]]
      [[3, 3]] [[7, 7]] 1 2 (by decide) (by decide) (by decide) (by decide)
      (by decide) (by decide) (by decide) 0 1 (by decide) (by decide)).2
      (by decide)⟩

/-- C9 (modelled from the spec, the network being an external
collaborator): after the flag-clearing pass of `forward_train` lines
275–280 has put every stochastic regularization layer in evaluation mode,
teacher inference reads none of the pseudo-random stream — two runs on the
same input with arbitrary random streams produce identical logits, and
hence identical pseudo-label data (here: the trust mask); pseudo-label
generation itself is a pure function of the logits. -/
theorem C9_eval_mode_inference_deterministic (net : List Layer) (x : List ℚ)
    (r1 r2 : List Bool) (thr : ℚ) :
    (runNet (setEvalFlags net) x r1).1 = (runNet (setEvalFlags net) x r2).1
    ∧ psLargeP (runNet (setEvalFlags net) x r1).1 thr
        = psLargeP (runNet (setEvalFlags net) x r2).1 thr
    ∧ pseudoWeightScalar (runNet (setEvalFlags net) x r1).1 thr
        = pseudoWeightScalar (runNet (setEvalFlags net) x r2).1 thr := by
  have hdet : ∀ (net : List Layer) (x : List ℚ) (r1 r2 : List Bool),
      (runNet (setEvalFlags net) x r1).1
        = (runNet (setEvalFlags net) x r2).1 := by
    intro net
    induction net with
    | nil => intro x r1 r2; rfl
    | cons l ls ih =>
        intro x r1 r2
        cases l with
        | func f =>
            show (runNet (setEvalFlags ls) (f x) r1).1
              = (runNet (setEvalFlags ls) (f x) r2).1
            exact ih (f x) r1 r2
        | dropout b =>
            show (runNet (setEvalFlags ls) x r1).1
              = (runNet (setEvalFlags ls) x r2).1
            exact ih x r1 r2
        | droppath b =>
            show (runNet (setEvalFlags ls) x r1).1
              = (runNet (setEvalFlags ls) x r2).1
            exact ih x r1 r2
  refine ⟨hdet net x r1 r2, ?_, ?_⟩
  · rw [hdet net x r1 r2]
  · rw [hdet net x r1 r2]

end Kduda
